import Mathlib

/-!
# Verification of the Telegram news bot pipeline

Shallow embedding of `telegram_news_bot.py`: the importance scorer,
the content-hash deduplicator (MD5 over normalized title + url), the
RSS-entry filter, the per-cycle selection (stable descending sort,
truncation to 10) and the delivery loop with its persisted store.

String operations model the Python originals on ASCII data:
`str.lower`, `str.strip`, regex `\w`/`\s` classes are Unicode-aware in
Python, while the keywords and separators the program uses are ASCII.
-/

namespace NewsBot

/-- ASCII lowering, as `str.lower` acts on ASCII input. -/
def lowerChar (c : Char) : Char :=
  if 65 ≤ c.toNat ∧ c.toNat ≤ 90 then Char.ofNat (c.toNat + 32) else c

/-- Lowercase a string (model of `str.lower`). -/
def lowerStr (s : String) : String :=
  String.mk (s.toList.map lowerChar)

/-- Strip leading and trailing whitespace (model of `str.strip`). -/
def stripStr (s : String) : String :=
  String.mk (((s.toList.dropWhile Char.isWhitespace).reverse.dropWhile
    Char.isWhitespace).reverse)

/-- `needle` occurs as a contiguous sublist of the haystack
(model of Python `needle in text` on strings). -/
def listContainsSub (needle : List Char) : List Char → Bool
  | [] => needle.isEmpty
  | c :: rest => needle.isPrefixOf (c :: rest) || listContainsSub needle rest

/-- Substring test: Python `sub in hay`. -/
def strContains (hay sub : String) : Bool :=
  listContainsSub sub.toList hay.toList

/-- Scan for the closing `>` of a tag already known to have a nonempty
body; returns the remainder after the `>` when found. -/
def scanTagEnd : List Char → Option (List Char)
  | [] => none
  | c :: rest => if c = '>' then some rest else scanTagEnd rest

/-- One pass of `re.sub(r'<[^>]+>', '', s)`: `buf` holds the (reversed)
characters accumulated since an unresolved `<`. -/
def stripTagsGo : Option (List Char) → List Char → List Char
  | none, [] => []
  | some buf, [] => buf.reverse
  | none, c :: rest =>
    if c = '<' then stripTagsGo (some ['<']) rest
    else c :: stripTagsGo none rest
  | some buf, c :: rest =>
    if c = '>' then
      if 2 ≤ buf.length then stripTagsGo none rest
      else buf.reverse ++ '>' :: stripTagsGo none rest
    else stripTagsGo (some (c :: buf)) rest

/-- `re.sub(r'<[^>]+>', '', description)` — the description cleaning in
`scrape_rss_feed`. -/
def stripTags (s : String) : String :=
  String.mk (stripTagsGo none s.toList)

/-! ## Keyword tables (`self.high_impact_keywords` and the title-bonus lists) -/

def breaking_urgent : List String :=
  ["breaking", "urgent", "alert", "major announcement", "massive", "historic",
   "unprecedented", "emergency", "just in", "developing"]

def indian_companies : List String :=
  ["paytm", "flipkart", "zomato", "swiggy", "byju", "oyo", "ola", "phonepe", "razorpay",
   "cred", "dream11", "nykaa", "tcs", "infosys", "wipro", "reliance", "jio", "airtel"]

def global_tech_giants : List String :=
  ["apple", "google", "microsoft", "amazon", "meta", "facebook", "tesla",
   "nvidia", "openai", "chatgpt", "netflix", "uber", "airbnb"]

def high_impact_events : List String :=
  ["ipo", "acquisition", "merger", "funding", "bankruptcy", "layoffs", "hiring freeze",
   "data breach", "hack", "cyber attack", "stock crash", "market surge"]

def tech_breakthroughs : List String :=
  ["ai breakthrough", "quantum computing", "autonomous", "electric vehicle",
   "cryptocurrency", "bitcoin", "ethereum", "blockchain", "5g", "metaverse"]

/-- The keyword dictionary, in Python dict insertion order. -/
def high_impact_keywords : List (String × List String) :=
  [("breaking_urgent", breaking_urgent),
   ("indian_companies", indian_companies),
   ("global_tech_giants", global_tech_giants),
   ("high_impact_events", high_impact_events),
   ("tech_breakthroughs", tech_breakthroughs)]

def urgent_words : List String :=
  ["breaking", "urgent", "major", "massive", "historic", "unprecedented"]

def company_words : List String :=
  ["apple", "google", "microsoft", "amazon", "tesla", "openai", "meta"]

def event_words : List String :=
  ["ipo", "acquisition", "merger", "funding", "layoffs", "hack", "breach"]

def india_words : List String :=
  ["india", "indian", "rupee", "mumbai", "delhi"]

/-- `sum(1 for keyword in keywords if keyword in text)`. -/
def countMatches (keywords : List String) (text : String) : Nat :=
  (keywords.filter (fun k => strContains text k)).length

/-- One step of the category scoring loop in `calculate_importance_score`. -/
def categoryStep (text : String) (score : Int) (p : String × List String) : Int :=
  let m := countMatches p.2 text
  if 0 < m then
    if p.1 = "breaking_urgent" then score + (m : Int) * 8
    else if p.1 = "high_impact_events" then score + (m : Int) * 6
    else if p.1 = "indian_companies" ∨ p.1 = "global_tech_giants" then
      score + (m : Int) * 4
    else if p.1 = "tech_breakthroughs" then score + (m : Int) * 5
    else score
  else score

/-- `calculate_importance_score(title, content)`. -/
def calculate_importance_score (title : String) (content : String) : Int :=
  let text := lowerStr (title ++ " " ++ content)
  let title_lower := lowerStr title
  let score : Int := high_impact_keywords.foldl (categoryStep text) 0
  let score := if urgent_words.any (fun w => strContains title_lower w)
    then score + 8 else score
  let score := if company_words.any (fun w => strContains title_lower w)
    then score + 6 else score
  let score := if event_words.any (fun w => strContains title_lower w)
    then score + 7 else score
  let score := if india_words.any (fun w => strContains title_lower w)
    then score + 3 else score
  min score 15

/-! ## Content hash: `create_content_hash` is `md5(clean_title + ":" + url)` -/

/-- `re.sub(r'[^\w\s]', '', title.lower()).strip()` — keep word characters
and whitespace of the lowercased title, then strip. -/
def clean_title (title : String) : String :=
  stripStr (String.mk ((lowerStr title).toList.filter
    (fun c => c.isAlphanum || c = '_' || c.isWhitespace)))

/-- UTF-8 encoding of one character, as byte values (Python `str.encode()`). -/
def utf8EncodeCharNat (c : Char) : List Nat :=
  let n := c.toNat
  if n < 128 then [n]
  else if n < 2048 then [192 + n / 64, 128 + n % 64]
  else if n < 65536 then [224 + n / 4096, 128 + (n / 64) % 64, 128 + n % 64]
  else [240 + n / 262144, 128 + (n / 4096) % 64, 128 + (n / 64) % 64, 128 + n % 64]

def utf8Bytes (s : String) : List Nat :=
  (s.toList.map utf8EncodeCharNat).flatten

/-- MD5 round constants. -/
def md5K : List Nat :=
  [0xd76aa478, 0xe8c7b756, 0x242070db, 0xc1bdceee,
   0xf57c0faf, 0x4787c62a, 0xa8304613, 0xfd469501,
   0x698098d8, 0x8b44f7af, 0xffff5bb1, 0x895cd7be,
   0x6b901122, 0xfd987193, 0xa679438e, 0x49b40821,
   0xf61e2562, 0xc040b340, 0x265e5a51, 0xe9b6c7aa,
   0xd62f105d, 0x02441453, 0xd8a1e681, 0xe7d3fbc8,
   0x21e1cde6, 0xc33707d6, 0xf4d50d87, 0x455a14ed,
   0xa9e3e905, 0xfcefa3f8, 0x676f02d9, 0x8d2a4c8a,
   0xfffa3942, 0x8771f681, 0x6d9d6122, 0xfde5380c,
   0xa4beea44, 0x4bdecfa9, 0xf6bb4b60, 0xbebfbc70,
   0x289b7ec6, 0xeaa127fa, 0xd4ef3085, 0x04881d05,
   0xd9d4d039, 0xe6db99e5, 0x1fa27cf8, 0xc4ac5665,
   0xf4292244, 0x432aff97, 0xab9423a7, 0xfc93a039,
   0x655b59c3, 0x8f0ccc92, 0xffeff47d, 0x85845dd1,
   0x6fa87e4f, 0xfe2ce6e0, 0xa3014314, 0x4e0811a1,
   0xf7537e82, 0xbd3af235, 0x2ad7d2bb, 0xeb86d391]

/-- MD5 per-round left-rotation amounts. -/
def md5S : List Nat :=
  [7, 12, 17, 22, 7, 12, 17, 22, 7, 12, 17, 22, 7, 12, 17, 22,
   5, 9, 14, 20, 5, 9, 14, 20, 5, 9, 14, 20, 5, 9, 14, 20,
   4, 11, 16, 23, 4, 11, 16, 23, 4, 11, 16, 23, 4, 11, 16, 23,
   6, 10, 15, 21, 6, 10, 15, 21, 6, 10, 15, 21, 6, 10, 15, 21]

/-- 32-bit left rotation on a value below `2^32`. -/
def rotl32 (x c : Nat) : Nat :=
  ((x <<< c) % 4294967296) ||| (x >>> (32 - c))

/-- Little-endian 32-bit word `g` of a 64-byte chunk. -/
def md5Word (chunk : List Nat) (g : Nat) : Nat :=
  chunk.getD (4 * g) 0 + 256 * chunk.getD (4 * g + 1) 0 +
    65536 * chunk.getD (4 * g + 2) 0 + 16777216 * chunk.getD (4 * g + 3) 0

/-- One of the 64 MD5 rounds. -/
def md5Step (chunk : List Nat) (st : Nat × Nat × Nat × Nat) (i : Nat) :
    Nat × Nat × Nat × Nat :=
  let (a, b, c, d) := st
  let fg : Nat × Nat :=
    if i < 16 then ((b &&& c) ||| ((b ^^^ 4294967295) &&& d), i)
    else if i < 32 then ((d &&& b) ||| ((d ^^^ 4294967295) &&& c), (5 * i + 1) % 16)
    else if i < 48 then (b ^^^ c ^^^ d, (3 * i + 5) % 16)
    else (c ^^^ (b ||| (d ^^^ 4294967295)), (7 * i) % 16)
  let f := (fg.1 + a + md5K.getD i 0 + md5Word chunk fg.2) % 4294967296
  (d, (b + rotl32 f (md5S.getD i 0)) % 4294967296, b, c)

/-- Process one 64-byte chunk. -/
def md5Chunk (st : Nat × Nat × Nat × Nat) (chunk : List Nat) :
    Nat × Nat × Nat × Nat :=
  let r := (List.range 64).foldl (md5Step chunk) st
  ((st.1 + r.1) % 4294967296, (st.2.1 + r.2.1) % 4294967296,
   (st.2.2.1 + r.2.2.1) % 4294967296, (st.2.2.2 + r.2.2.2) % 4294967296)

/-- MD5 padding: `0x80`, zeros to 56 mod 64, then the u64 bit length
little-endian. -/
def md5Pad (msg : List Nat) : List Nat :=
  let len := msg.length
  let zeros := (119 - len % 64) % 64
  let bitLen := (len * 8) % 18446744073709551616
  msg ++ 128 :: List.replicate zeros 0 ++
    (List.range 8).map (fun i => (bitLen / 256 ^ i) % 256)

/-- Split a byte list into 64-byte chunks. -/
def md5Chunks (acc : List Nat) : List Nat → List (List Nat)
  | [] => if acc.isEmpty then [] else [acc.reverse]
  | b :: rest =>
    if 63 ≤ acc.length then (b :: acc).reverse :: md5Chunks [] rest
    else md5Chunks (b :: acc) rest

def hexDigit (n : Nat) : Char :=
  if n < 10 then Char.ofNat (48 + n) else Char.ofNat (87 + n)

def byteToHex (b : Nat) : List Char :=
  [hexDigit (b / 16), hexDigit (b % 16)]

/-- The four state words serialized little-endian as bytes. -/
def md5WordBytes (w : Nat) : List Nat :=
  [w % 256, (w / 256) % 256, (w / 65536) % 256, (w / 16777216) % 256]

/-- `hashlib.md5(s.encode()).hexdigest()`. -/
def md5hex (s : String) : String :=
  let msg := md5Pad (utf8Bytes s)
  let st := (md5Chunks [] msg).foldl md5Chunk
    (1732584193, 4023233417, 2562383102, 271733878)
  String.mk ((([st.1, st.2.1, st.2.2.1, st.2.2.2].map md5WordBytes).flatten.map
    byteToHex).flatten)

/-- `create_content_hash(title, url)`. -/
def create_content_hash (title url : String) : String :=
  md5hex (clean_title title ++ ":" ++ url)

/-! ## Feed entries and scraping -/

/-- A raw `<item>` element: each child element may be absent
(`item.find(...)` returning `None`). -/
structure RawEntry where
  title : Option String
  link : Option String
  description : Option String
deriving Repr, DecidableEq

/-- The `NewsItem` dataclass. -/
structure NewsItem where
  title : String
  url : String
  source : String
  published_time : String
  importance_score : Int
  content_hash : String
deriving Repr, DecidableEq

/-- The per-item body of the loop in `scrape_rss_feed`: requires both a
title and a link element, scores, applies the `>= 7` threshold, and
skips fingerprints already in the sent-articles cache. -/
def process_item (cache : List String) (source_name now : String)
    (item : RawEntry) : Option NewsItem :=
  match item.title, item.link with
  | some t, some l =>
    let title := stripStr t
    let url := stripStr l
    let description := stripTags (stripStr (item.description.getD ""))
    let importance := calculate_importance_score title description
    if 7 ≤ importance then
      let content_hash := create_content_hash title url
      if cache.contains content_hash then none
      else some ⟨title, url, source_name, now, importance, content_hash⟩
    else none
  | _, _ => none

/-- `scrape_rss_feed`: at most the first 10 items, each processed by
`process_item`. -/
def scrape_rss_feed (cache : List String) (source_name now : String)
    (items : List RawEntry) : List NewsItem :=
  (items.take 10).filterMap (process_item cache source_name now)

/-! ## Selection: stable descending sort and truncation -/

/-- Order used by `all_articles.sort(key=..., reverse=True)`:
`a` precedes `b` when `a`'s score is at least `b`'s. -/
def score_ge (a b : NewsItem) : Prop :=
  b.importance_score ≤ a.importance_score

instance : DecidableRel score_ge :=
  fun a b => inferInstanceAs (Decidable (b.importance_score ≤ a.importance_score))

instance : IsTotal NewsItem score_ge :=
  ⟨fun a b => le_total b.importance_score a.importance_score⟩

instance : IsTrans NewsItem score_ge :=
  ⟨fun _ _ _ h1 h2 => le_trans h2 h1⟩

/-- All qualifying articles of one cycle, in discovery order (feed
iteration order, then in-feed order). -/
def aggregate_candidates (cache : List String) (now : String)
    (sources : List (String × List RawEntry)) : List NewsItem :=
  (sources.map (fun p => scrape_rss_feed cache p.1 now p.2)).flatten

/-- `scrape_all_sources`: aggregate, stable-sort descending by score
(Python `list.sort` is stable), return the top 10. -/
def scrape_all_sources (cache : List String) (now : String)
    (sources : List (String × List RawEntry)) : List NewsItem :=
  (List.insertionSort score_ge (aggregate_candidates cache now sources)).take 10

/-! ## Persisted store and delivery -/

/-- A row of the `articles` table. -/
structure DbRecord where
  content_hash : String
  url : String
  title : String
  source : String
  published_time : String
  importance_score : Int
  scraped_at : String
  sent_to_channel : Bool
  created_at : String
deriving Repr, DecidableEq

/-- `save_article`: `INSERT OR REPLACE` keyed on `content_hash`
(`scraped_at` and the `created_at` default are the current time). -/
def save_article (article : NewsItem) (sent_to_channel : Bool) (now : String)
    (db : List DbRecord) : List DbRecord :=
  db.filter (fun r => r.content_hash != article.content_hash) ++
    [⟨article.content_hash, article.url, article.title, article.source,
      article.published_time, article.importance_score, now, sent_to_channel, now⟩]

/-- The store holds a record marked delivered for this fingerprint. -/
def marked_delivered (db : List DbRecord) (h : String) : Bool :=
  db.any (fun r => r.content_hash == h && r.sent_to_channel)

/-- `load_sent_articles_cache`: fingerprints of records delivered within
the trailing window (ISO timestamps compare lexicographically). -/
def load_sent_articles_cache (week_ago : String) (db : List DbRecord) :
    List String :=
  (db.filter (fun r => r.sent_to_channel && decide (week_ago < r.created_at))).map
    (fun r => r.content_hash)

/-- In-memory bot state: the sent-articles cache and the persisted store. -/
structure BotState where
  sent_articles_cache : List String
  db : List DbRecord
deriving Repr, DecidableEq

/-- The per-article send loop of `run_monitoring`: `outcomes i` is the
messaging collaborator's success for the `i`-th send attempt. On success
`send_to_channel` adds the fingerprint to the cache and the loop saves
the record with `sent_to_channel=True`; on failure it just continues. -/
def deliver_articles (outcomes : Nat → Bool) (now : String) :
    Nat → List NewsItem → BotState → BotState × List NewsItem
  | _, [], s => (s, [])
  | i, a :: rest, s =>
    if outcomes i then
      let s' : BotState :=
        ⟨a.content_hash :: s.sent_articles_cache, save_article a true now s.db⟩
      let r := deliver_articles outcomes now (i + 1) rest s'
      (r.1, a :: r.2)
    else
      deliver_articles outcomes now (i + 1) rest s

/-- One cycle of `run_monitoring`: scrape every source (saving each
qualifying article with `sent_to_channel=False`), select the batch, and
deliver it. Returns the new state and the successfully sent articles. -/
def run_cycle (outcomes : Nat → Bool) (now : String)
    (sources : List (String × List RawEntry)) (s : BotState) :
    BotState × List NewsItem :=
  let candidates := aggregate_candidates s.sent_articles_cache now sources
  let db1 := candidates.foldl (fun db a => save_article a false now db) s.db
  let batch := scrape_all_sources s.sent_articles_cache now sources
  deliver_articles outcomes now 0 batch ⟨s.sent_articles_cache, db1⟩

/-- The elements of `l` at positions (counting from `i`) where the
outcome is true; the delivered sublist of a batch. -/
def selectByIdx (o : Nat → Bool) : Nat → List NewsItem → List NewsItem
  | _, [] => []
  | i, a :: rest =>
    if o i then a :: selectByIdx o (i + 1) rest else selectByIdx o (i + 1) rest

/-- The batch a cycle passes to delivery. -/
def cycle_batch (now : String) (sources : List (String × List RawEntry))
    (s : BotState) : List NewsItem :=
  scrape_all_sources s.sent_articles_cache now sources

/-- The `NewsItem` that `process_item` builds from a complete raw entry. -/
def mk_item (src now t l d : String) : NewsItem :=
  ⟨stripStr t, stripStr l, src, now,
   calculate_importance_score (stripStr t) (stripTags (stripStr d)),
   create_content_hash (stripStr t) (stripStr l)⟩

/-- The store holds a record for fingerprint `h` that is marked
delivered and was (re)written at time `now`. -/
def has_fresh_sent (db : List DbRecord) (h now : String) : Prop :=
  ∃ r ∈ db, r.content_hash = h ∧ r.sent_to_channel = true ∧ r.created_at = now

end NewsBot

/-! # Theorems -/

namespace NewsBot

set_option maxRecDepth 100000

lemma categoryStep_nonneg (text : String) {s : Int} (hs : 0 ≤ s)
    (p : String × List String) : 0 ≤ categoryStep text s p := by
  simp only [categoryStep]
  split_ifs <;>
    first
      | exact hs
      | exact add_nonneg hs (mul_nonneg (Int.natCast_nonneg _) (by norm_num))

lemma foldl_categoryStep_nonneg (text : String) :
    ∀ (l : List (String × List String)) (s : Int), 0 ≤ s →
      0 ≤ l.foldl (categoryStep text) s
  | [], _, hs => hs
  | p :: rest, _, hs =>
    foldl_categoryStep_nonneg text rest _ (categoryStep_nonneg text hs p)

lemma ite_add_nonneg {c : Prop} [Decidable c] {s k : Int} (hs : 0 ≤ s)
    (hk : 0 ≤ k) : 0 ≤ if c then s + k else s := by
  split
  · exact add_nonneg hs hk
  · exact hs

/-- Claim C1: for every title and description, the importance score is an
integer with `0 ≤ score ≤ 15`; the final sum is clamped to `[0, 15]`. -/
theorem claim_c1 (title description : String) :
    0 ≤ calculate_importance_score title description ∧
      calculate_importance_score title description ≤ 15 := by
  simp only [calculate_importance_score]
  refine ⟨le_min ?_ (by norm_num), min_le_right _ _⟩
  exact ite_add_nonneg (ite_add_nonneg (ite_add_nonneg (ite_add_nonneg
    (foldl_categoryStep_nonneg _ _ _ le_rfl) (by norm_num)) (by norm_num))
    (by norm_num)) (by norm_num)

lemma process_item_hash_eq (cache : List String) (src1 src2 now1 now2 : String)
    (item : RawEntry) :
    (process_item cache src1 now1 item).map (fun a => a.content_hash) =
      (process_item cache src2 now2 item).map (fun a => a.content_hash) := by
  rcases item with ⟨t, l, d⟩
  cases t <;> cases l
  · rfl
  · rfl
  · rfl
  · simp only [process_item]
    split_ifs <;> rfl

/-- Claim C2: the content fingerprint is a pure function of the
normalized title and the raw url only: equal normalized titles with the
same url hash identically, and neither the source name nor the scrape
time can change the fingerprint an entry receives. -/
theorem claim_c2 :
    (∀ t1 t2 url : String, clean_title t1 = clean_title t2 →
      create_content_hash t1 url = create_content_hash t2 url) ∧
    (∀ (e : RawEntry) (cache : List String) (src1 src2 now1 now2 : String),
      (scrape_rss_feed cache src1 now1 [e]).map (fun a => a.content_hash) =
        (scrape_rss_feed cache src2 now2 [e]).map (fun a => a.content_hash)) := by
  constructor
  · intro t1 t2 url h
    unfold create_content_hash
    rw [h]
  · intro e cache src1 src2 now1 now2
    have h := process_item_hash_eq cache src1 src2 now1 now2 e
    simp only [scrape_rss_feed, show ([e] : List RawEntry).take 10 = [e] from rfl,
      List.filterMap_cons, List.filterMap_nil]
    cases h1 : process_item cache src1 now1 e <;>
      cases h2 : process_item cache src2 now2 e <;>
      rw [h1, h2] at h <;> simp_all

/-- Witness for C2 at a concrete input: two raw titles with the same
normalization fingerprint identically. -/
theorem claim_c2_witness :
    clean_title "Apple, Inc.!" = clean_title "APPLE inc" ∧
      create_content_hash "Apple, Inc.!" "http://x" =
        create_content_hash "APPLE inc" "http://x" :=
  ⟨by decide, claim_c2.1 "Apple, Inc.!" "APPLE inc" "http://x" (by decide)⟩

/-- Claim C7: the title `"Apple announces BREAKING acquisition"` with
empty description matches the breaking_urgent and global-tech categories
and the urgency, company and event title bonuses, and its score clamps
to exactly 15. -/
theorem claim_c7 :
    calculate_importance_score "Apple announces BREAKING acquisition" "" = 15 ∧
    0 < countMatches breaking_urgent
      (lowerStr ("Apple announces BREAKING acquisition" ++ " " ++ "")) ∧
    0 < countMatches global_tech_giants
      (lowerStr ("Apple announces BREAKING acquisition" ++ " " ++ "")) ∧
    urgent_words.any
      (fun w => strContains (lowerStr "Apple announces BREAKING acquisition") w) = true ∧
    company_words.any
      (fun w => strContains (lowerStr "Apple announces BREAKING acquisition") w) = true ∧
    event_words.any
      (fun w => strContains (lowerStr "Apple announces BREAKING acquisition") w) = true := by
  refine ⟨by decide, by decide, by decide, by decide, by decide, by decide⟩

lemma process_item_some {cache : List String} {src now : String} {item : RawEntry}
    {a : NewsItem} (h : process_item cache src now item = some a) :
    7 ≤ a.importance_score ∧ cache.contains a.content_hash = false := by
  rcases item with ⟨t, l, d⟩
  cases t <;> cases l <;> simp only [process_item] at h <;>
    try exact Option.noConfusion h
  split_ifs at h with h7 hc
  all_goals
    first
      | exact Option.noConfusion h
      | (cases h; exact ⟨h7, by simpa using hc⟩)

lemma mem_scrape_rss_feed {cache : List String} {src now : String}
    {items : List RawEntry} {a : NewsItem}
    (h : a ∈ scrape_rss_feed cache src now items) :
    7 ≤ a.importance_score ∧ cache.contains a.content_hash = false := by
  rw [scrape_rss_feed, List.mem_filterMap] at h
  obtain ⟨e, _, he⟩ := h
  exact process_item_some he

lemma mem_aggregate_candidates {cache : List String} {now : String}
    {sources : List (String × List RawEntry)} {a : NewsItem}
    (h : a ∈ aggregate_candidates cache now sources) :
    7 ≤ a.importance_score ∧ cache.contains a.content_hash = false := by
  rw [aggregate_candidates, List.mem_flatten] at h
  obtain ⟨l, hl, hal⟩ := h
  rw [List.mem_map] at hl
  obtain ⟨p, _, rfl⟩ := hl
  exact mem_scrape_rss_feed hal

lemma mem_scrape_all_sources {cache : List String} {now : String}
    {sources : List (String × List RawEntry)} {a : NewsItem}
    (h : a ∈ scrape_all_sources cache now sources) :
    a ∈ aggregate_candidates cache now sources := by
  rw [scrape_all_sources] at h
  exact (List.mem_insertionSort score_ge).1 (List.mem_of_mem_take h)

lemma deliver_articles_snd (o : Nat → Bool) (now : String) (l : List NewsItem) :
    ∀ (i : Nat) (s : BotState),
      (deliver_articles o now i l s).2 = selectByIdx o i l := by
  induction l with
  | nil => intro i s; rfl
  | cons a rest ih =>
    intro i s
    simp only [deliver_articles, selectByIdx]
    by_cases h : o i
    · simp [h, ih]
    · simp [h, ih]

lemma deliver_articles_cache (o : Nat → Bool) (now : String) (l : List NewsItem) :
    ∀ (i : Nat) (s : BotState),
      (deliver_articles o now i l s).1.sent_articles_cache =
        ((deliver_articles o now i l s).2.map (fun a => a.content_hash)).reverse ++
          s.sent_articles_cache := by
  induction l with
  | nil => intro i s; rfl
  | cons a rest ih =>
    intro i s
    simp only [deliver_articles]
    by_cases h : o i
    · simp [h, ih, List.append_assoc]
    · simp [h, ih]

lemma selectByIdx_subset {o : Nat → Bool} {a : NewsItem} :
    ∀ {l : List NewsItem} {i : Nat}, a ∈ selectByIdx o i l → a ∈ l := by
  intro l
  induction l with
  | nil => intro i h; exact absurd h (List.not_mem_nil a)
  | cons b rest ih =>
    intro i h
    simp only [selectByIdx] at h
    by_cases hb : o i
    · rw [if_pos hb] at h
      rcases List.mem_cons.1 h with h1 | h2
      · exact h1 ▸ List.mem_cons_self b rest
      · exact List.mem_cons_of_mem b (ih h2)
    · rw [if_neg hb] at h
      exact List.mem_cons_of_mem b (ih h)

lemma mem_selectByIdx {o : Nat → Bool} {a : NewsItem} :
    ∀ {l : List NewsItem} {i : Nat}, a ∈ selectByIdx o i l →
      ∃ j, ∃ hj : j < l.length, a = l.get ⟨j, hj⟩ ∧ o (i + j) = true := by
  intro l
  induction l with
  | nil => intro i h; exact absurd h (List.not_mem_nil a)
  | cons b rest ih =>
    intro i h
    simp only [selectByIdx] at h
    by_cases hb : o i
    · rw [if_pos hb] at h
      rcases List.mem_cons.1 h with h1 | h2
      · exact ⟨0, Nat.succ_pos _, h1, hb⟩
      · obtain ⟨j, hj, ha, ho⟩ := ih h2
        exact ⟨j + 1, Nat.succ_lt_succ hj, ha,
          by rw [show i + (j + 1) = i + 1 + j by omega]; exact ho⟩
    · rw [if_neg hb] at h
      obtain ⟨j, hj, ha, ho⟩ := ih h
      exact ⟨j + 1, Nat.succ_lt_succ hj, ha,
        by rw [show i + (j + 1) = i + 1 + j by omega]; exact ho⟩

lemma get_mem_selectByIdx {o : Nat → Bool} :
    ∀ (l : List NewsItem) (i j : Nat) (hj : j < l.length), o (i + j) = true →
      l.get ⟨j, hj⟩ ∈ selectByIdx o i l := by
  intro l
  induction l with
  | nil => intro i j hj _; exact absurd hj (by simp)
  | cons b rest ih =>
    intro i j hj ho
    cases j with
    | zero =>
      simp only [selectByIdx]
      rw [if_pos (by simpa using ho)]
      exact List.mem_cons_self _ _
    | succ j =>
      simp only [selectByIdx]
      have hmem := ih (i + 1) j (Nat.lt_of_succ_lt_succ hj)
        (by rw [show i + 1 + j = i + (j + 1) by omega]; exact ho)
      by_cases hb : o i
      · rw [if_pos hb]; exact List.mem_cons_of_mem _ hmem
      · rw [if_neg hb]; exact hmem

/-- Claim C3: no article with importance score below 7 ever appears in
the selected batch or among the delivered articles of a cycle: the
threshold filter is applied to every entry before it can enter the
candidate set. -/
theorem claim_c3 :
    (∀ (cache : List String) (now : String)
        (sources : List (String × List RawEntry)) (a : NewsItem),
      a ∈ scrape_all_sources cache now sources → 7 ≤ a.importance_score) ∧
    (∀ (o : Nat → Bool) (now : String)
        (sources : List (String × List RawEntry)) (s : BotState) (a : NewsItem),
      a ∈ (run_cycle o now sources s).2 → 7 ≤ a.importance_score) := by
  have hbatch : ∀ (cache : List String) (now : String)
      (sources : List (String × List RawEntry)) (a : NewsItem),
      a ∈ scrape_all_sources cache now sources → 7 ≤ a.importance_score :=
    fun _ _ _ _ h => (mem_aggregate_candidates (mem_scrape_all_sources h)).1
  refine ⟨hbatch, ?_⟩
  intro o now sources s a h
  simp only [run_cycle] at h
  rw [deliver_articles_snd] at h
  exact hbatch _ _ _ _ (selectByIdx_subset h)

/-- Witness for C3: a concretely delivered article has score at least 7. -/
theorem claim_c3_witness :
    (⟨"Apple announces BREAKING acquisition", "http://x", "src", "T1", 15,
        create_content_hash "Apple announces BREAKING acquisition" "http://x"⟩ : NewsItem) ∈
      (run_cycle (fun _ => true) "T1"
        [("src", [⟨some "Apple announces BREAKING acquisition", some "http://x", none⟩])]
        ⟨[], []⟩).2 ∧
    (7 : Int) ≤
      (⟨"Apple announces BREAKING acquisition", "http://x", "src", "T1", 15,
          create_content_hash "Apple announces BREAKING acquisition" "http://x"⟩ :
        NewsItem).importance_score :=
  ⟨by decide, claim_c3.2 (fun _ => true) "T1"
    [("src", [⟨some "Apple announces BREAKING acquisition", some "http://x", none⟩])]
    ⟨[], []⟩
    ⟨"Apple announces BREAKING acquisition", "http://x", "src", "T1", 15,
      create_content_hash "Apple announces BREAKING acquisition" "http://x"⟩
    (by decide)⟩

lemma selectByIdx_length_le (o : Nat → Bool) :
    ∀ (l : List NewsItem) (i : Nat), (selectByIdx o i l).length ≤ l.length := by
  intro l
  induction l with
  | nil => intro i; simp [selectByIdx]
  | cons b rest ih =>
    intro i
    simp only [selectByIdx, List.length_cons]
    by_cases hb : o i
    · rw [if_pos hb]
      simpa using Nat.succ_le_succ (ih (i + 1))
    · rw [if_neg hb]
      exact le_trans (ih (i + 1)) (Nat.le_succ _)

/-- Claim C4: however many articles qualify, the batch a cycle passes to
delivery has at most 10 articles, and so does the delivered list. -/
theorem claim_c4 :
    (∀ (cache : List String) (now : String)
        (sources : List (String × List RawEntry)),
      (scrape_all_sources cache now sources).length ≤ 10) ∧
    (∀ (o : Nat → Bool) (now : String)
        (sources : List (String × List RawEntry)) (s : BotState),
      (run_cycle o now sources s).2.length ≤ 10) := by
  have hb : ∀ (cache : List String) (now : String)
      (sources : List (String × List RawEntry)),
      (scrape_all_sources cache now sources).length ≤ 10 := by
    intro cache now sources
    rw [scrape_all_sources, List.length_take]
    exact min_le_left _ _
  refine ⟨hb, ?_⟩
  intro o now sources s
  simp only [run_cycle]
  rw [deliver_articles_snd]
  exact le_trans (selectByIdx_length_le o _ 0) (hb _ _ _)

lemma filter_orderedInsert_score (k : Int) (a : NewsItem) :
    ∀ l : List NewsItem,
      (List.orderedInsert score_ge a l).filter (fun x => x.importance_score == k) =
        (a :: l).filter (fun x => x.importance_score == k) := by
  intro l
  induction l with
  | nil => rfl
  | cons b rest ih =>
    simp only [List.orderedInsert]
    by_cases hr : score_ge a b
    · rw [if_pos hr]
    · rw [if_neg hr]
      have hlt : a.importance_score < b.importance_score := by
        simp only [score_ge] at hr
        exact not_le.1 hr
      by_cases ha : a.importance_score = k <;> by_cases hbk : b.importance_score = k
      · exact absurd (ha.trans hbk.symm) (ne_of_lt hlt)
      · simp [List.filter_cons, ih, beq_iff_eq, ha, hbk]
      · simp [List.filter_cons, ih, beq_iff_eq, ha, hbk]
      · simp [List.filter_cons, ih, beq_iff_eq, ha, hbk]

lemma filter_insertionSort_score (k : Int) :
    ∀ l : List NewsItem,
      (List.insertionSort score_ge l).filter (fun x => x.importance_score == k) =
        l.filter (fun x => x.importance_score == k) := by
  intro l
  induction l with
  | nil => rfl
  | cons a rest ih =>
    simp only [List.insertionSort]
    rw [filter_orderedInsert_score k a (List.insertionSort score_ge rest)]
    by_cases ha : a.importance_score = k <;>
      simp [List.filter_cons, ih, beq_iff_eq, ha]

/-- Claim C5: the selected batch is sorted by importance score in
descending order, the sort is stable (for every score value, the
equal-score articles appear exactly in discovery order: the filtered
subsequences of the sorted list and of the aggregated candidate list
coincide), and the selection is that stable descending sort of the
aggregated candidates followed by truncation to 10. -/
theorem claim_c5 (cache : List String) (now : String)
    (sources : List (String × List RawEntry)) :
    List.Sorted score_ge (scrape_all_sources cache now sources) ∧
    (∀ k : Int,
      (List.insertionSort score_ge (aggregate_candidates cache now sources)).filter
          (fun x => x.importance_score == k) =
        (aggregate_candidates cache now sources).filter
          (fun x => x.importance_score == k)) ∧
    scrape_all_sources cache now sources =
      (List.insertionSort score_ge (aggregate_candidates cache now sources)).take 10 := by
  refine ⟨?_, fun k => filter_insertionSort_score k _, rfl⟩
  exact List.Pairwise.sublist (List.take_sublist _ _)
    (List.sorted_insertionSort score_ge _)

/-- Counterexample to Claim C6: an entry with a title but no link is
dropped by `scrape_rss_feed` (its title alone would have scored 15),
while the same entry with a link is retained — the code requires both
elements, not at least one. -/
theorem claim_c6_counterexample :
    scrape_rss_feed [] "srcname" "now"
        [⟨some "Apple announces BREAKING acquisition", none, none⟩] = [] ∧
    (scrape_rss_feed [] "srcname" "now"
        [⟨some "Apple announces BREAKING acquisition", some "http://x", none⟩]).length
      = 1 :=
  ⟨rfl, by decide⟩

/-- Claim C6 as amended: during feed parsing an entry is dropped
whenever it is missing a title or missing a link; only entries carrying
both proceed. -/
theorem claim_c6_amended (cache : List String) (src now : String) (item : RawEntry)
    (h : item.title = none ∨ item.link = none) :
    process_item cache src now item = none := by
  rcases item with ⟨t, l, d⟩
  rcases h with h | h
  · dsimp only at h
    subst h
    cases l <;> rfl
  · dsimp only at h
    subst h
    cases t <;> rfl

/-- Witness for the amended C6: a concrete entry with a title but no
link is dropped. -/
theorem claim_c6_amended_witness :
    process_item [] "src" "now" ⟨some "title", none, some "desc"⟩ = none :=
  claim_c6_amended [] "src" "now" ⟨some "title", none, some "desc"⟩ (Or.inr rfl)

lemma marked_save_ne {x : NewsItem} {b : Bool} {now h : String} {db : List DbRecord}
    (hne : x.content_hash ≠ h) :
    marked_delivered (save_article x b now db) h = marked_delivered db h := by
  simp only [marked_delivered, save_article, List.any_append, List.any_filter]
  have h1 : ∀ r : DbRecord,
      ((r.content_hash != x.content_hash) &&
        (r.content_hash == h && r.sent_to_channel)) =
      (r.content_hash == h && r.sent_to_channel) := by
    intro r
    cases hb : (r.content_hash == h)
    · simp [hb]
    · have : r.content_hash ≠ x.content_hash := by
        rw [beq_iff_eq.1 hb]
        exact fun e => hne e.symm
      simp [hb, bne_iff_ne, this]
  simp only [h1]
  have h2 : ((x.content_hash == h) && b) = false := by
    simp [beq_eq_false_iff_ne.2 hne]
  simp [h2]

lemma marked_save_self_false {x : NewsItem} {now : String} {db : List DbRecord} :
    marked_delivered (save_article x false now db) x.content_hash = false := by
  simp only [marked_delivered, save_article, List.any_append, List.any_filter]
  have h1 : ∀ r : DbRecord,
      ((r.content_hash != x.content_hash) &&
        (r.content_hash == x.content_hash && r.sent_to_channel)) = false := by
    intro r
    cases hb : (r.content_hash == x.content_hash) <;> simp [hb, bne]
  simp [h1]

lemma marked_foldl_save_ne {now h : String} :
    ∀ (L : List NewsItem) (db : List DbRecord), (∀ a ∈ L, a.content_hash ≠ h) →
      marked_delivered (L.foldl (fun db a => save_article a false now db) db) h =
        marked_delivered db h := by
  intro L
  induction L with
  | nil => intro db _; rfl
  | cons a rest ih =>
    intro db hL
    simp only [List.foldl_cons]
    rw [ih _ (fun b hb => hL b (List.mem_cons_of_mem a hb)),
      marked_save_ne (hL a (List.mem_cons_self a rest))]

lemma marked_foldl_save_false {now h : String} :
    ∀ (L : List NewsItem) (db : List DbRecord),
      h ∈ L.map (fun a => a.content_hash) →
      marked_delivered (L.foldl (fun db a => save_article a false now db) db) h =
        false := by
  intro L
  induction L with
  | nil => intro db hm; exact absurd hm (by simp)
  | cons a rest ih =>
    intro db hm
    simp only [List.foldl_cons]
    by_cases hr : h ∈ rest.map (fun a => a.content_hash)
    · exact ih _ hr
    · have ha : a.content_hash = h := by
        rcases List.mem_map.1 hm with ⟨b, hb, hbh⟩
        rcases List.mem_cons.1 hb with rfl | hb2
        · exact hbh
        · exact absurd (List.mem_map.2 ⟨b, hb2, hbh⟩) hr
      have hrest : ∀ b ∈ rest, b.content_hash ≠ h := fun b hb hbe =>
        hr (List.mem_map.2 ⟨b, hb, hbe⟩)
      rw [marked_foldl_save_ne rest _ hrest, ← ha]
      exact marked_save_self_false

lemma marked_deliver_of_ne (o : Nat → Bool) (now : String) :
    ∀ (l : List NewsItem) (i : Nat) (s : BotState) (h : String),
      (∀ a ∈ selectByIdx o i l, a.content_hash ≠ h) →
      marked_delivered (deliver_articles o now i l s).1.db h =
        marked_delivered s.db h := by
  intro l
  induction l with
  | nil => intro i s h _; rfl
  | cons a rest ih =>
    intro i s h hsel
    simp only [selectByIdx] at hsel
    simp only [deliver_articles]
    by_cases hb : o i
    · rw [if_pos hb] at hsel
      simp only [hb, if_true]
      rw [ih (i + 1) _ h (fun x hx => hsel x (List.mem_cons_of_mem a hx))]
      exact marked_save_ne (hsel a (List.mem_cons_self a _))
    · rw [if_neg hb] at hsel
      simp only [hb, if_false]
      exact ih (i + 1) s h hsel

lemma has_fresh_sent_save_true (x : NewsItem) (now h : String) (db : List DbRecord)
    (hf : has_fresh_sent db h now) :
    has_fresh_sent (save_article x true now db) h now := by
  by_cases hx : x.content_hash = h
  · exact ⟨⟨x.content_hash, x.url, x.title, x.source, x.published_time,
      x.importance_score, now, true, now⟩,
      List.mem_append_right _ (List.mem_singleton.2 rfl), hx, rfl, rfl⟩
  · obtain ⟨r, hr, hh, hs, hc⟩ := hf
    refine ⟨r, List.mem_append_left _ (List.mem_filter.2 ⟨hr, ?_⟩), hh, hs, hc⟩
    simp only [bne_iff_ne]
    rw [hh]
    exact fun e => hx e.symm

lemma deliver_preserves_fresh (o : Nat → Bool) (now : String) :
    ∀ (l : List NewsItem) (i : Nat) (s : BotState) (h : String),
      has_fresh_sent s.db h now →
      has_fresh_sent (deliver_articles o now i l s).1.db h now := by
  intro l
  induction l with
  | nil => intro i s h hf; exact hf
  | cons a rest ih =>
    intro i s h hf
    simp only [deliver_articles]
    by_cases hb : o i
    · simp only [hb, if_true]
      exact ih (i + 1) _ h (has_fresh_sent_save_true a now h s.db hf)
    · simp only [hb, if_false]
      exact ih (i + 1) s h hf

lemma deliver_delivered_fresh (o : Nat → Bool) (now : String) :
    ∀ (l : List NewsItem) (i : Nat) (s : BotState) (a : NewsItem),
      a ∈ (deliver_articles o now i l s).2 →
      has_fresh_sent (deliver_articles o now i l s).1.db a.content_hash now := by
  intro l
  induction l with
  | nil => intro i s a ha; exact absurd ha (List.not_mem_nil a)
  | cons b rest ih =>
    intro i s a ha
    simp only [deliver_articles] at ha ⊢
    by_cases hb : o i
    · simp only [hb, if_true] at ha ⊢
      rcases List.mem_cons.1 ha with rfl | ha2
      · refine deliver_preserves_fresh o now rest (i + 1) _ a.content_hash ?_
        exact ⟨⟨a.content_hash, a.url, a.title, a.source, a.published_time,
          a.importance_score, now, true, now⟩,
          List.mem_append_right _ (List.mem_singleton.2 rfl), rfl, rfl, rfl⟩
      · exact ih (i + 1) _ a ha2
    · simp only [hb, if_false] at ha ⊢
      exact ih (i + 1) s a ha

lemma not_mem_of_contains_false {h : String} {cache : List String}
    (hc : cache.contains h = false) : h ∉ cache := by
  intro hm
  have hc' : List.elem h cache = false := hc
  rw [List.elem_iff.2 hm] at hc'
  exact Bool.noConfusion hc'

lemma no_redeliver (o : Nat → Bool) (now : String)
    (sources : List (String × List RawEntry)) (s : BotState) (h : String)
    (hc : h ∈ s.sent_articles_cache) :
    h ∉ (run_cycle o now sources s).2.map (fun a => a.content_hash) := by
  intro hmem
  rcases List.mem_map.1 hmem with ⟨a, ha, rfl⟩
  simp only [run_cycle] at ha
  rw [deliver_articles_snd] at ha
  have hbatch := selectByIdx_subset ha
  exact not_mem_of_contains_false
    (mem_aggregate_candidates (mem_scrape_all_sources hbatch)).2 hc

lemma delivered_mem_final_cache (o : Nat → Bool) (now : String)
    (sources : List (String × List RawEntry)) (s : BotState) {h : String}
    (hd : h ∈ (run_cycle o now sources s).2.map (fun a => a.content_hash)) :
    h ∈ (run_cycle o now sources s).1.sent_articles_cache := by
  simp only [run_cycle] at hd ⊢
  rw [deliver_articles_cache]
  exact List.mem_append_left _ (List.mem_reverse.2 hd)

lemma run_delivered_fresh (o : Nat → Bool) (now : String)
    (sources : List (String × List RawEntry)) (s : BotState) {h : String}
    (hd : h ∈ (run_cycle o now sources s).2.map (fun a => a.content_hash)) :
    has_fresh_sent (run_cycle o now sources s).1.db h now := by
  rcases List.mem_map.1 hd with ⟨a, ha, rfl⟩
  simp only [run_cycle] at ha ⊢
  exact deliver_delivered_fresh o now _ 0 _ a ha

lemma fresh_mem_load {db : List DbRecord} {h now week_ago : String}
    (hf : has_fresh_sent db h now) (hw : week_ago < now) :
    h ∈ load_sent_articles_cache week_ago db := by
  obtain ⟨r, hr, hh, hs, hc⟩ := hf
  refine List.mem_map.2 ⟨r, List.mem_filter.2 ⟨hr, ?_⟩, hh⟩
  rw [hs, hc]
  simp [hw]

/-- Claim C8: if the send of a batch article fails and no other article
of the batch with the same fingerprint succeeds, the article's
fingerprint is not added to the cache, its persisted record is not
marked delivered, and the failure does not abort the rest of the batch:
every article whose send succeeds is still delivered. -/
theorem claim_c8 (o : Nat → Bool) (now : String)
    (sources : List (String × List RawEntry)) (s : BotState) (i : Nat)
    (hi : i < (cycle_batch now sources s).length)
    (hfail : o i = false)
    (huniq : ∀ j, ∀ hj : j < (cycle_batch now sources s).length, j ≠ i →
      ((cycle_batch now sources s).get ⟨j, hj⟩).content_hash ≠
        ((cycle_batch now sources s).get ⟨i, hi⟩).content_hash) :
    ((cycle_batch now sources s).get ⟨i, hi⟩).content_hash ∉
        (run_cycle o now sources s).1.sent_articles_cache ∧
    marked_delivered (run_cycle o now sources s).1.db
        ((cycle_batch now sources s).get ⟨i, hi⟩).content_hash = false ∧
    (∀ j, ∀ hj : j < (cycle_batch now sources s).length, o j = true →
      (cycle_batch now sources s).get ⟨j, hj⟩ ∈ (run_cycle o now sources s).2) := by
  simp only [cycle_batch] at hi huniq ⊢
  have hnodel : ∀ x ∈ selectByIdx o 0 (scrape_all_sources s.sent_articles_cache now sources),
      x.content_hash ≠
        ((scrape_all_sources s.sent_articles_cache now sources).get ⟨i, hi⟩).content_hash := by
    intro x hx
    obtain ⟨j, hj, rfl, ho⟩ := mem_selectByIdx hx
    rw [Nat.zero_add] at ho
    by_cases hji : j = i
    · subst hji
      rw [hfail] at ho
      exact absurd ho (by simp)
    · exact huniq j hj hji
  have hamem : (scrape_all_sources s.sent_articles_cache now sources).get ⟨i, hi⟩ ∈
      scrape_all_sources s.sent_articles_cache now sources :=
    List.get_mem _ i hi
  have hnotc :
      ((scrape_all_sources s.sent_articles_cache now sources).get ⟨i, hi⟩).content_hash ∉
        s.sent_articles_cache :=
    not_mem_of_contains_false
      (mem_aggregate_candidates (mem_scrape_all_sources hamem)).2
  refine ⟨?_, ?_, ?_⟩
  · intro hmem
    simp only [run_cycle] at hmem
    rw [deliver_articles_cache] at hmem
    rcases List.mem_append.1 hmem with hm | hm
    · rw [List.mem_reverse] at hm
      rcases List.mem_map.1 hm with ⟨x, hx, hxe⟩
      rw [deliver_articles_snd] at hx
      exact hnodel x hx hxe
    · exact hnotc hm
  · simp only [run_cycle]
    rw [marked_deliver_of_ne o now _ 0 _ _ hnodel]
    apply marked_foldl_save_false
    exact List.mem_map.2 ⟨_, mem_scrape_all_sources hamem, rfl⟩
  · intro j hj ho
    simp only [run_cycle]
    rw [deliver_articles_snd]
    exact get_mem_selectByIdx _ 0 j hj (by rw [Nat.zero_add]; exact ho)

/-- Witness for C8: a cycle whose only send attempt fails leaves the
fingerprint out of the cache and the record unmarked. -/
theorem claim_c8_witness :
    (((cycle_batch "T1"
        [("src", [⟨some "Apple announces BREAKING acquisition", some "http://x", none⟩])]
        ⟨[], []⟩).get ⟨0, by decide⟩).content_hash ∉
      (run_cycle (fun _ => false) "T1"
        [("src", [⟨some "Apple announces BREAKING acquisition", some "http://x", none⟩])]
        ⟨[], []⟩).1.sent_articles_cache) ∧
    marked_delivered
      (run_cycle (fun _ => false) "T1"
        [("src", [⟨some "Apple announces BREAKING acquisition", some "http://x", none⟩])]
        ⟨[], []⟩).1.db
      (((cycle_batch "T1"
        [("src", [⟨some "Apple announces BREAKING acquisition", some "http://x", none⟩])]
        ⟨[], []⟩).get ⟨0, by decide⟩).content_hash) = false := by
  have huniq : ∀ j, ∀ hj : j < (cycle_batch "T1"
      [("src", [⟨some "Apple announces BREAKING acquisition", some "http://x", none⟩])]
      ⟨[], []⟩).length, j ≠ 0 →
      ((cycle_batch "T1"
        [("src", [⟨some "Apple announces BREAKING acquisition", some "http://x", none⟩])]
        ⟨[], []⟩).get ⟨j, hj⟩).content_hash ≠
      ((cycle_batch "T1"
        [("src", [⟨some "Apple announces BREAKING acquisition", some "http://x", none⟩])]
        ⟨[], []⟩).get ⟨0, by decide⟩).content_hash := by
    intro j hj hne
    have hlen : (cycle_batch "T1"
        [("src", [⟨some "Apple announces BREAKING acquisition", some "http://x", none⟩])]
        ⟨[], []⟩).length = 1 := by decide
    rw [hlen] at hj
    exact absurd (by omega) hne
  obtain ⟨h1, h2, -⟩ := claim_c8 (fun _ => false) "T1"
    [("src", [⟨some "Apple announces BREAKING acquisition", some "http://x", none⟩])]
    ⟨[], []⟩ 0 (by decide) rfl huniq
  exact ⟨h1, h2⟩

/-- Claim C9: with the persisted store and cache carried over (or the
cache rebuilt from the store), a second cycle over the same entries
delivers nothing whose fingerprint was delivered in the first cycle. -/
theorem claim_c9 (o1 o2 : Nat → Bool) (now1 now2 week_ago : String)
    (sources : List (String × List RawEntry)) (s0 : BotState) (h : String)
    (hdel : h ∈ (run_cycle o1 now1 sources s0).2.map (fun a => a.content_hash)) :
    h ∉ (run_cycle o2 now2 sources (run_cycle o1 now1 sources s0).1).2.map
        (fun a => a.content_hash) ∧
    (week_ago < now1 →
      h ∉ (run_cycle o2 now2 sources
          ⟨load_sent_articles_cache week_ago (run_cycle o1 now1 sources s0).1.db,
            (run_cycle o1 now1 sources s0).1.db⟩).2.map
        (fun a => a.content_hash)) := by
  constructor
  · exact no_redeliver o2 now2 sources _ h
      (delivered_mem_final_cache o1 now1 sources s0 hdel)
  · intro hw
    exact no_redeliver o2 now2 sources _ h
      (fresh_mem_load (run_delivered_fresh o1 now1 sources s0 hdel) hw)

/-- Witness for C9: a concretely delivered fingerprint is delivered by
neither variant of the second cycle. -/
theorem claim_c9_witness :
    (create_content_hash "Apple announces BREAKING acquisition" "http://x" ∈
      (run_cycle (fun _ => true) "2024-01-08T00:00:00"
        [("src", [⟨some "Apple announces BREAKING acquisition", some "http://x", none⟩])]
        ⟨[], []⟩).2.map (fun a => a.content_hash)) ∧
    (create_content_hash "Apple announces BREAKING acquisition" "http://x" ∉
      (run_cycle (fun _ => true) "2024-01-08T01:00:00"
        [("src", [⟨some "Apple announces BREAKING acquisition", some "http://x", none⟩])]
        (run_cycle (fun _ => true) "2024-01-08T00:00:00"
          [("src", [⟨some "Apple announces BREAKING acquisition", some "http://x", none⟩])]
          ⟨[], []⟩).1).2.map (fun a => a.content_hash)) ∧
    (create_content_hash "Apple announces BREAKING acquisition" "http://x" ∉
      (run_cycle (fun _ => true) "2024-01-08T01:00:00"
        [("src", [⟨some "Apple announces BREAKING acquisition", some "http://x", none⟩])]
        ⟨load_sent_articles_cache "2024-01-01T00:00:00"
            (run_cycle (fun _ => true) "2024-01-08T00:00:00"
              [("src", [⟨some "Apple announces BREAKING acquisition", some "http://x", none⟩])]
              ⟨[], []⟩).1.db,
          (run_cycle (fun _ => true) "2024-01-08T00:00:00"
            [("src", [⟨some "Apple announces BREAKING acquisition", some "http://x", none⟩])]
            ⟨[], []⟩).1.db⟩).2.map (fun a => a.content_hash)) := by
  have h := claim_c9 (fun _ => true) (fun _ => true)
    "2024-01-08T00:00:00" "2024-01-08T01:00:00" "2024-01-01T00:00:00"
    [("src", [⟨some "Apple announces BREAKING acquisition", some "http://x", none⟩])]
    ⟨[], []⟩
    (create_content_hash "Apple announces BREAKING acquisition" "http://x")
    (by decide)
  exact ⟨by decide, h.1, h.2 (by rw [String.lt_iff_toList_lt]; decide)⟩

/-- Claim C10: duplicate suppression applies only across cycles: two raw
entries with the same fingerprint that both score at least 7 and are not
in the delivered cache both enter the candidate set, and when both
survive truncation both are sent in the same cycle — the dedupe check
consults only the previously delivered cache. -/
theorem claim_c10 (src now t l d : String) (s : BotState)
    (hsc : 7 ≤ calculate_importance_score (stripStr t) (stripTags (stripStr d)))
    (hca : s.sent_articles_cache.contains
        (create_content_hash (stripStr t) (stripStr l)) = false) :
    scrape_rss_feed s.sent_articles_cache src now
        [⟨some t, some l, some d⟩, ⟨some t, some l, some d⟩] =
      [mk_item src now t l d, mk_item src now t l d] ∧
    (run_cycle (fun _ => true) now
        [(src, [⟨some t, some l, some d⟩, ⟨some t, some l, some d⟩])] s).2 =
      [mk_item src now t l d, mk_item src now t l d] := by
  have hpi : process_item s.sent_articles_cache src now ⟨some t, some l, some d⟩ =
      some (mk_item src now t l d) := by
    simp only [process_item, mk_item, Option.getD_some]
    rw [if_pos hsc, if_neg (by rw [hca]; exact Bool.false_ne_true)]
  have hscrape : scrape_rss_feed s.sent_articles_cache src now
      [⟨some t, some l, some d⟩, ⟨some t, some l, some d⟩] =
      [mk_item src now t l d, mk_item src now t l d] := by
    simp only [scrape_rss_feed]
    rw [show (([⟨some t, some l, some d⟩, ⟨some t, some l, some d⟩] :
        List RawEntry).take 10) =
      [⟨some t, some l, some d⟩, ⟨some t, some l, some d⟩] from rfl]
    rw [List.filterMap_cons, hpi, List.filterMap_cons, hpi, List.filterMap_nil]
  refine ⟨hscrape, ?_⟩
  simp only [run_cycle]
  rw [deliver_articles_snd]
  have hagg : aggregate_candidates s.sent_articles_cache now
      [(src, [⟨some t, some l, some d⟩, ⟨some t, some l, some d⟩])] =
      [mk_item src now t l d, mk_item src now t l d] := by
    simp [aggregate_candidates, hscrape]
  have hsort : List.insertionSort score_ge
      [mk_item src now t l d, mk_item src now t l d] =
      [mk_item src now t l d, mk_item src now t l d] := by
    simp only [List.insertionSort, List.orderedInsert]
    split <;> rfl
  simp only [scrape_all_sources, hagg, hsort]
  rfl

/-- Witness for C10: a concrete duplicated entry is scraped twice and
delivered twice within one cycle. -/
theorem claim_c10_witness :
    (7 ≤ calculate_importance_score
      (stripStr "Apple announces BREAKING acquisition") (stripTags (stripStr ""))) ∧
    scrape_rss_feed [] "src" "T1"
        [⟨some "Apple announces BREAKING acquisition", some "http://x", some ""⟩,
         ⟨some "Apple announces BREAKING acquisition", some "http://x", some ""⟩] =
      [mk_item "src" "T1" "Apple announces BREAKING acquisition" "http://x" "",
       mk_item "src" "T1" "Apple announces BREAKING acquisition" "http://x" ""] ∧
    (run_cycle (fun _ => true) "T1"
        [("src", [⟨some "Apple announces BREAKING acquisition", some "http://x", some ""⟩,
                  ⟨some "Apple announces BREAKING acquisition", some "http://x", some ""⟩])]
        ⟨[], []⟩).2 =
      [mk_item "src" "T1" "Apple announces BREAKING acquisition" "http://x" "",
       mk_item "src" "T1" "Apple announces BREAKING acquisition" "http://x" ""] := by
  have h := claim_c10 "src" "T1" "Apple announces BREAKING acquisition" "http://x" ""
    ⟨[], []⟩ (by decide) (by decide)
  exact ⟨by decide, h.1, h.2⟩

end NewsBot
